import Mathlib

/-!
# Verification of the incense-timer core (src/incense-timer/src/app/page.tsx)

A shallow embedding of the core of the incense session timer: the timer
state machine (start / pause / reset / setDuration / tick), the session
recorder (`buildSessionRecord`, prepend-and-truncate on completion), the
history store (`loadHistory` / `persistHistory` over a JSON value model),
and the daily content selector (`todaysQuote`).

Conventions of the embedding:
* JavaScript numbers that the program uses as integers (timestamps in
  milliseconds, durations in seconds, the countdown) are modelled as `Int`.
* The browser `localStorage` slot is modelled by `StoredHistory`: the key
  can be absent, hold a string that `JSON.parse` rejects, or hold a parsed
  JSON value (`JsValue`).
* Property access `entry.k` on a JSON value is modelled by `getProp`,
  which faults (TypeError) exactly on `null`/`undefined` receivers.
* `Array.prototype.sort` with the comparator `(a, b) => b.endedAt - a.endedAt`
  is a stable sort ascending in the comparator, i.e. descending in
  `endedAt`; it is modelled by `List.mergeSort`, which is stable.
* `console.error` diagnostics are modelled as a `Bool` component of the
  result ("a failure was logged").
-/

/-- `interface SessionRecord` from page.tsx. -/
structure SessionRecord where
  id : String
  startedAt : Int
  endedAt : Int
  duration : Int
deriving DecidableEq

/-- `interface QuoteEntry` from page.tsx. -/
structure QuoteEntry where
  text : String
  author : String
deriving DecidableEq

/-- The fixed content set `QUOTES` from page.tsx. -/
def QUOTES : List QuoteEntry :=
  [ { text := "Wherever you are, be all there.", author := "Jim Elliot" },
    { text := "The fragrance of flowers spreads only in the direction of the wind. But the goodness of a person spreads in all directions.",
      author := "Chanakya" },
    { text := "Each moment is all we need, not more.", author := "Mother Teresa" },
    { text := "One incense stick can change the air of a room. One focused session can transform a day.",
      author := "Unknown" },
    { text := "Silence isn’t empty, it’s full of answers.", author := "Zen Proverb" },
    { text := "Simplicity is the keynote of all true elegance.", author := "Coco Chanel" } ]

/-- `const STORAGE_KEY` from page.tsx. -/
def STORAGE_KEY : String := "kodou-timer-history-v1"

/-- `const DEFAULT_DURATION = 25 * 60` from page.tsx (seconds). -/
def DEFAULT_DURATION : Int := 25 * 60

/-- `buildSessionRecord(durationInSeconds)` from page.tsx.  The call
`Date.now()` is passed in explicitly as `now`. -/
def buildSessionRecord (durationInSeconds : Int) (now : Int) : SessionRecord :=
  { id := toString now
    startedAt := now - durationInSeconds * 1000
    endedAt := now
    duration := durationInSeconds }

/-- The React state of the `Home` component that the claims are about:
`totalDuration`, `remaining`, `isRunning`, `history`. -/
structure TimerState where
  totalDuration : Int
  remaining : Int
  isRunning : Bool
  history : List SessionRecord
deriving DecidableEq

/-- `handleStart` from page.tsx: if `remaining <= 0` reseed `remaining`
to `totalDuration`; in every case set `isRunning` to `true`. -/
def handleStart (s : TimerState) : TimerState :=
  if s.remaining ≤ 0 then
    { s with remaining := s.totalDuration, isRunning := true }
  else
    { s with isRunning := true }

/-- `handlePause` from page.tsx. -/
def handlePause (s : TimerState) : TimerState :=
  { s with isRunning := false }

/-- `handleReset` from page.tsx. -/
def handleReset (s : TimerState) : TimerState :=
  { s with isRunning := false, remaining := s.totalDuration }

/-- `handleDurationChange(value)` from page.tsx. -/
def handleDurationChange (value : Int) (s : TimerState) : TimerState :=
  { s with totalDuration := value, remaining := value, isRunning := false }

/-- The `setHistory` updater run on completion in the tick effect:
`[buildSessionRecord(totalDuration), ...prevHistory].slice(0, 20)`. -/
def completeSession (totalDuration : Int) (now : Int)
    (prevHistory : List SessionRecord) : List SessionRecord :=
  (buildSessionRecord totalDuration now :: prevHistory).take 20

/-- One firing of the interval callback from the tick `useEffect` in
page.tsx.  The interval exists only while `isRunning` (the effect returns
early otherwise), so a tick on a non-running state is a no-op.  The `Nat`
component counts how many times the chime capability was invoked by this
tick (the `chime()` call in the completion branch). -/
def tick (now : Int) (s : TimerState) : TimerState × Nat :=
  if s.isRunning then
    if s.remaining ≤ 1 then
      ({ s with remaining := 0
               , isRunning := false
               , history := completeSession s.totalDuration now s.history }, 1)
    else
      ({ s with remaining := s.remaining - 1 }, 0)
  else
    (s, 0)

/-- The state component of `tick`. -/
def tickState (now : Int) (s : TimerState) : TimerState :=
  (tick now s).1

/-- `n` firings of the interval callback, all stamped with the same
wall-clock value `now` (the stamp only affects the recorded history). -/
def ticks (n : Nat) (now : Int) (s : TimerState) : TimerState :=
  match n with
  | 0 => s
  | Nat.succ m => ticks m now (tickState now s)

/-- Total number of chime invocations across `n` firings of the interval
callback. -/
def ticksChime (n : Nat) (now : Int) (s : TimerState) : Nat :=
  match n with
  | 0 => 0
  | Nat.succ m => (tick now s).2 + ticksChime m now (tickState now s)

/-- Folding a sequence of completions (each the `setHistory` updater) over
a starting history, one wall-clock stamp per completion. -/
def runCompletions (totalDuration : Int) (times : List Int)
    (h : List SessionRecord) : List SessionRecord :=
  times.foldl (fun acc t => completeSession totalDuration t acc) h

/-- A JSON value, as produced by `JSON.parse`, extended with `undefined`
(the result of accessing a missing property). -/
inductive JsValue where
  | jsUndefined
  | jsNull
  | bool (b : Bool)
  | num (n : Int)
  | str (s : String)
  | arr (elems : List JsValue)
  | obj (fields : List (String × JsValue))

/-- First binding of a key in a parsed object's field list. -/
def lookupField : List (String × JsValue) → String → Option JsValue
  | [], _ => none
  | (k, v) :: rest, key => if k = key then some v else lookupField rest key

/-- JavaScript property access `receiver.key`: throws a TypeError on
`null`/`undefined` receivers, yields `undefined` for a missing key or a
primitive receiver, and the bound value on an object. -/
def getProp : JsValue → String → Except Unit JsValue
  | .jsUndefined, _ => .error ()
  | .jsNull, _ => .error ()
  | .obj fields, key =>
      match lookupField fields key with
      | some v => .ok v
      | none => .ok .jsUndefined
  | _, _ => .ok .jsUndefined

/-- `typeof v === "number"`. -/
def isNumber : JsValue → Bool
  | .num _ => true
  | _ => false

/-- The filter callback of `loadHistory`:
`typeof entry.endedAt === "number" && typeof entry.duration === "number"`,
with the TypeError a property access on a `null`/`undefined` entry raises. -/
def entryKeep (entry : JsValue) : Except Unit Bool :=
  match getProp entry "endedAt" with
  | .error e => .error e
  | .ok a =>
    if isNumber a then
      match getProp entry "duration" with
      | .error e => .error e
      | .ok b => .ok (isNumber b)
    else
      .ok false

/-- `parsed.filter(...)` in `loadHistory`: left-to-right, aborting on the
first entry whose property access throws. -/
def filterKeep : List JsValue → Except Unit (List JsValue)
  | [] => .ok []
  | entry :: rest =>
    match entryKeep entry with
    | .error e => .error e
    | .ok keep =>
      match filterKeep rest with
      | .error e => .error e
      | .ok tail => .ok (if keep then entry :: tail else tail)

/-- The `endedAt` number of an entry that passed the filter (0 is never
reached on kept entries). -/
def endedVal (entry : JsValue) : Int :=
  match getProp entry "endedAt" with
  | .ok (.num n) => n
  | _ => 0

/-- `.sort((a, b) => b.endedAt - a.endedAt)` in `loadHistory`: a stable
sort, descending in `endedAt`, modelled by the stable `List.mergeSort`. -/
def sortByEndedDesc (l : List JsValue) : List JsValue :=
  l.mergeSort (fun a b => decide (endedVal b ≤ endedVal a))

/-- The contents of the `localStorage` slot under `STORAGE_KEY`: the key
may be absent (or empty, which `loadHistory` treats the same), hold text
that `JSON.parse` rejects, or hold text that parses to a `JsValue`. -/
inductive StoredHistory where
  | absent
  | unparseable
  | value (v : JsValue)

/-- `loadHistory` from page.tsx.  The `Bool` component records whether the
`catch` branch ran (`console.error("Failed to parse history", ...)`).
An absent key returns early with no diagnostic; a parse failure, a parsed
non-array (whose `.filter` is not a function), and a filter callback that
throws are all caught by the surrounding `try`, log, and yield `[]`. -/
def loadHistory : StoredHistory → List JsValue × Bool
  | .absent => ([], false)
  | .unparseable => ([], true)
  | .value v =>
    match v with
    | .arr entries =>
      match filterKeep entries with
      | .ok kept => (sortByEndedDesc kept, false)
      | .error _ => ([], true)
    | _ => ([], true)

/-- The JSON object `JSON.stringify` writes for one `SessionRecord`. -/
def recordToJs (r : SessionRecord) : JsValue :=
  .obj [("id", .str r.id), ("startedAt", .num r.startedAt),
        ("endedAt", .num r.endedAt), ("duration", .num r.duration)]

/-- `persistHistory` from page.tsx, composed with the `JSON.parse` a later
read performs: the slot afterwards holds the array of record objects. -/
def persistHistory (history : List SessionRecord) : StoredHistory :=
  .value (.arr (history.map recordToJs))

/-- `true` on values whose property access cannot throw (anything except
`null` and `undefined`). -/
def accessible : JsValue → Bool
  | .jsNull => false
  | .jsUndefined => false
  | _ => true

/-- The pure content of the filter callback, defined on accessible
entries: numeric `endedAt` and numeric `duration`. -/
def keepPure (entry : JsValue) : Bool :=
  match getProp entry "endedAt", getProp entry "duration" with
  | .ok a, .ok b => isNumber a && isNumber b
  | _, _ => false

/-- A calendar date, the triple an ISO date string "YYYY-MM-DD" carries. -/
structure CalDate where
  year : Nat
  month : Nat
  day : Nat
deriving DecidableEq

/-- Gregorian leap year. -/
def isLeapYear (y : Nat) : Bool :=
  (y % 4 = 0 && y % 100 ≠ 0) || y % 400 = 0

/-- Days in a Gregorian month. -/
def daysInMonth (y m : Nat) : Nat :=
  if m = 2 then (if isLeapYear y then 29 else 28)
  else if m = 4 || m = 6 || m = 9 || m = 11 then 30
  else 31

/-- The calendar day after `d`. -/
def nextDay (d : CalDate) : CalDate :=
  if d.day < daysInMonth d.year d.month then
    { d with day := d.day + 1 }
  else if d.month < 12 then
    { year := d.year, month := d.month + 1, day := 1 }
  else
    { year := d.year + 1, month := 1, day := 1 }

/-- The calendar day before `d`. -/
def prevDay (d : CalDate) : CalDate :=
  if 1 < d.day then
    { d with day := d.day - 1 }
  else if 1 < d.month then
    { year := d.year, month := d.month - 1,
      day := daysInMonth d.year (d.month - 1) }
  else
    { year := d.year - 1, month := 12, day := 31 }

/-- An instant of wall-clock time: the UTC calendar date (the first ten
characters of `Date.prototype.toISOString`) together with the minute of
that UTC day (0 ≤ minuteOfDay < 1440). -/
structure Instant where
  utcDate : CalDate
  minuteOfDay : Nat
deriving DecidableEq

/-- The calendar date of an instant in a fixed-offset local timezone,
`tzOffsetMinutes` east of UTC (real offsets satisfy |offset| < 1440, and
`Instant.minuteOfDay < 1440`, so the local day is the UTC day or one of
its neighbours). -/
def localCalendarDate (tzOffsetMinutes : Int) (i : Instant) : CalDate :=
  let t : Int := (i.minuteOfDay : Int) + tzOffsetMinutes
  if t < 0 then prevDay i.utcDate
  else if 1440 ≤ t then nextDay i.utcDate
  else i.utcDate

/-- The hash in `todaysQuote`: the ISO date string "YYYY-MM-DD" is split
on "-" and the numeric components are summed
(`dayIndex.split("-").reduce((acc, part) => acc + parseInt(part, 10), 0)`). -/
def isoDayHash (d : CalDate) : Nat :=
  d.year + d.month + d.day

/-- `QUOTES[hash % QUOTES.length]`, applied to a calendar date. -/
def todaysQuote (d : CalDate) : QuoteEntry :=
  QUOTES.get ⟨isoDayHash d % QUOTES.length, Nat.mod_lt _ (by decide)⟩

/-- `todaysQuote` as page.tsx evaluates it at an instant: the date fed to
the hash is `new Date().toISOString().slice(0, 10)`, the UTC calendar
date of the instant. -/
def todaysQuoteAt (i : Instant) : QuoteEntry :=
  todaysQuote i.utcDate

/-- Outcome of the audio work inside the `try` of the bell-chime trigger
(creating the context, ramping gain, starting the oscillator): it either
succeeds or throws. -/
def bellChimeTrigger (audio : Except Unit Unit) : Bool :=
  match audio with
  | .ok _ => false
  | .error _ => true

/-- The tick callback with the chime capability made explicit: `audio` is
the outcome of the audio work should the chime fire.  Components: the next
timer state, the number of chime invocations, and whether the chime logged
a contained failure.  `bellChimeTrigger` is the trigger returned by
`useBellChime`; its `try`/`catch` swallows the failure, so the callback
continues identically in either case. -/
def tickWithChime (audio : Except Unit Unit) (now : Int) (s : TimerState) :
    TimerState × Nat × Bool :=
  if s.isRunning then
    if s.remaining ≤ 1 then
      ({ s with remaining := 0
               , isRunning := false
               , history := completeSession s.totalDuration now s.history },
       1, bellChimeTrigger audio)
    else
      ({ s with remaining := s.remaining - 1 }, 0, false)
  else
    (s, 0, false)

/-- The state-machine invariant of the spec: 0 ≤ remaining ≤ totalDuration. -/
def TimerInv (s : TimerState) : Prop :=
  0 ≤ s.remaining ∧ s.remaining ≤ s.totalDuration

/-- History ordered by `endedAt` descending (most recent first). -/
def sortedDescR (l : List SessionRecord) : Prop :=
  l.Pairwise (fun a b => b.endedAt ≤ a.endedAt)

/-- JSON entries ordered by `endedAt` descending. -/
def sortedDescJs (l : List JsValue) : Prop :=
  l.Pairwise (fun a b => endedVal b ≤ endedVal a)


/-- A well-formed stored entry: numeric `endedAt` and `duration`. -/
def goodEntry : JsValue :=
  .obj [("id", .str "1"), ("startedAt", .num 0),
        ("endedAt", .num 1000), ("duration", .num 60)]

/-- A stored array holding a well-formed entry followed by a JSON `null`. -/
def storedWithNull : StoredHistory :=
  .value (.arr [goodEntry, .jsNull])

/-- Twenty-one well-formed stored entries, oldest first. -/
def entriesOverCap : List JsValue :=
  (List.range 21).map
    (fun i => JsValue.obj [("endedAt", JsValue.num (i : Int)),
                           ("duration", JsValue.num 60)])

/-- A stored array holding twenty-one well-formed entries. -/
def storedOverCap : StoredHistory :=
  .value (.arr entriesOverCap)

theorem tick_notRunning (now : Int) (s : TimerState) (h : s.isRunning = false) :
    tick now s = (s, 0) := by
  simp [tick, h]

theorem tick_decrement (now : Int) (s : TimerState) (hrun : s.isRunning = true)
    (h : ¬ s.remaining ≤ 1) :
    tick now s = ({ s with remaining := s.remaining - 1 }, 0) := by
  simp [tick, hrun, h]

theorem tick_completing (now : Int) (s : TimerState) (hrun : s.isRunning = true)
    (h : s.remaining ≤ 1) :
    tick now s = ({ s with remaining := 0
                         , isRunning := false
                         , history := completeSession s.totalDuration now s.history }, 1) := by
  simp [tick, hrun, h]

theorem ticks_run (k : Nat) : ∀ (s : TimerState) (now : Int),
    s.isRunning = true → (k : Int) < s.remaining →
    ticks k now s = { s with remaining := s.remaining - k } := by
  induction k with
  | zero =>
    intro s now _ _
    simp [ticks]
  | succ k ih =>
    intro s now hrun hlt
    have h1 : ¬ s.remaining ≤ 1 := by push_cast at hlt; omega
    have hstep : tickState now s = { s with remaining := s.remaining - 1 } := by
      simp [tickState, tick_decrement now s hrun h1]
    show ticks k now (tickState now s) = _
    rw [hstep, ih ({ s with remaining := s.remaining - 1 }) now hrun
      (by push_cast at hlt ⊢; omega)]
    congr 1
    push_cast
    ring

theorem ticks_complete (n : Nat) : ∀ (s : TimerState) (now : Int),
    s.isRunning = true → s.remaining = (n : Int) → 1 ≤ n →
    ticks n now s = { s with remaining := 0
                           , isRunning := false
                           , history := completeSession s.totalDuration now s.history } := by
  induction n with
  | zero => intro s now _ _ h; omega
  | succ m ih =>
    intro s now hrun hrem _
    rcases Nat.eq_zero_or_pos m with hm | hm
    · subst hm
      have h1 : s.remaining ≤ 1 := by rw [hrem]; norm_num
      show ticks 0 now (tickState now s) = _
      simp [ticks, tickState, tick_completing now s hrun h1]
    · have h1 : ¬ s.remaining ≤ 1 := by rw [hrem]; push_cast; omega
      have hstep : tickState now s = { s with remaining := s.remaining - 1 } := by
        simp [tickState, tick_decrement now s hrun h1]
      show ticks m now (tickState now s) = _
      rw [hstep, ih ({ s with remaining := s.remaining - 1 }) now hrun
        (by rw [hrem]; push_cast; ring) hm]

theorem ticksChime_complete (n : Nat) : ∀ (s : TimerState) (now : Int),
    s.isRunning = true → s.remaining = (n : Int) → 1 ≤ n →
    ticksChime n now s = 1 := by
  induction n with
  | zero => intro s now _ _ h; omega
  | succ m ih =>
    intro s now hrun hrem _
    rcases Nat.eq_zero_or_pos m with hm | hm
    · subst hm
      have h1 : s.remaining ≤ 1 := by rw [hrem]; norm_num
      show (tick now s).2 + ticksChime 0 now (tickState now s) = 1
      rw [tick_completing now s hrun h1]
      simp [ticksChime]
    · have h1 : ¬ s.remaining ≤ 1 := by rw [hrem]; push_cast; omega
      show (tick now s).2 + ticksChime m now (tickState now s) = 1
      rw [tick_decrement now s hrun h1]
      simp only [tickState, tick_decrement now s hrun h1]
      rw [ih ({ s with remaining := s.remaining - 1 }) now hrun
        (by rw [hrem]; push_cast; ring) hm]

theorem entryKeep_accessible (e : JsValue) (h : accessible e = true) :
    entryKeep e = Except.ok (keepPure e) := by
  cases e with
  | jsUndefined => simp [accessible] at h
  | jsNull => simp [accessible] at h
  | bool b => rfl
  | num n => rfl
  | str s => rfl
  | arr xs => rfl
  | obj fs =>
    cases hf : lookupField fs "endedAt" with
    | none =>
      cases hd : lookupField fs "duration" with
      | none => simp [entryKeep, keepPure, getProp, hf, hd, isNumber]
      | some b =>
        cases b <;> simp [entryKeep, keepPure, getProp, hf, hd, isNumber]
    | some a =>
      cases hd : lookupField fs "duration" with
      | none =>
        cases a <;> simp [entryKeep, keepPure, getProp, hf, hd, isNumber]
      | some b =>
        cases a <;> cases b <;>
          simp [entryKeep, keepPure, getProp, hf, hd, isNumber]

theorem filterKeep_accessible (l : List JsValue) (h : l.all accessible = true) :
    filterKeep l = Except.ok (l.filter keepPure) := by
  induction l with
  | nil => rfl
  | cons e rest ih =>
    simp only [List.all_cons, Bool.and_eq_true] at h
    simp only [filterKeep, entryKeep_accessible e h.1, ih h.2, List.filter]
    by_cases hk : keepPure e = true <;> simp [hk]

theorem keepPure_recordToJs (r : SessionRecord) : keepPure (recordToJs r) = true := by
  simp [keepPure, recordToJs, getProp, lookupField, isNumber]

theorem accessible_recordToJs (r : SessionRecord) : accessible (recordToJs r) = true := rfl

theorem endedVal_recordToJs (r : SessionRecord) : endedVal (recordToJs r) = r.endedAt := by
  simp [endedVal, recordToJs, getProp, lookupField]

theorem sortByEndedDesc_sorted (l : List JsValue) : sortedDescJs (sortByEndedDesc l) := by
  have h := @List.sorted_mergeSort JsValue
    (fun a b : JsValue => decide (endedVal b ≤ endedVal a))
    (fun a b c hab hbc => by
      simp only [decide_eq_true_eq] at hab hbc ⊢
      exact le_trans hbc hab)
    (fun a b => by
      simp only [Bool.or_eq_true, decide_eq_true_eq]
      exact le_total (endedVal b) (endedVal a))
    l
  exact h.imp (fun hab => by simpa using hab)

theorem sortByEndedDesc_of_sorted (l : List JsValue) (h : sortedDescJs l) :
    sortByEndedDesc l = l := by
  apply List.mergeSort_of_sorted
  exact h.imp (fun hab => by simpa using hab)

theorem sortByEndedDesc_length (l : List JsValue) :
    (sortByEndedDesc l).length = l.length :=
  (List.mergeSort_perm l _).length_eq

theorem take_append_take {α : Type} (l m : List α) (n : Nat) :
    (l ++ m.take n).take n = (l ++ m).take n := by
  rw [List.take_append_eq_append_take, List.take_append_eq_append_take,
    List.take_take]
  congr 1
  exact congrArg (fun k => m.take k) (Nat.min_eq_left (Nat.sub_le n l.length))

theorem runCompletions_eq (d : Int) (ts : List Int) : ∀ (h : List SessionRecord),
    h.length ≤ 20 →
    runCompletions d ts h =
      ((ts.map (fun t => buildSessionRecord d t)).reverse ++ h).take 20 := by
  induction ts with
  | nil =>
    intro h hlen
    simp [runCompletions, List.take_of_length_le hlen]
  | cons t ts ih =>
    intro h hlen
    show runCompletions d ts (completeSession d t h) = _
    rw [ih (completeSession d t h) (by simp [completeSession])]
    simp only [completeSession, List.map_cons, List.reverse_cons]
    rw [take_append_take, List.append_assoc]
    rfl

/-- Claim C1, as stated, is false: the selector hashes the UTC ISO date
(`new Date().toISOString().slice(0, 10)`), not the local calendar date.
In a UTC+10 timezone (offset 600 minutes), 20:00 UTC on 2024-05-07 and
04:00 UTC on 2024-05-08 fall on the same local calendar day (2024-05-08),
yet the two evaluations select different content entries. -/
theorem C1_counterexample :
    localCalendarDate 600 ⟨⟨2024, 5, 7⟩, 1200⟩ =
      localCalendarDate 600 ⟨⟨2024, 5, 8⟩, 240⟩ ∧
    todaysQuoteAt ⟨⟨2024, 5, 7⟩, 1200⟩ ≠ todaysQuoteAt ⟨⟨2024, 5, 8⟩, 240⟩ :=
  ⟨by decide, by decide⟩

/-- Claim C1 (amended): the daily content selector is a pure function of
the UTC calendar date: two evaluations on the same UTC calendar day return
the identical content entry, and the selected entry changes only at
UTC-midnight boundaries. -/
theorem C1_utc_determinism (i j : Instant) (h : i.utcDate = j.utcDate) :
    todaysQuoteAt i = todaysQuoteAt j := by
  simp [todaysQuoteAt, h]

/-- Witness for C1_utc_determinism: two instants of the same UTC day,
01:00 and 23:00 of 2024-05-07, select the same entry. -/
theorem C1_utc_determinism_witness :
    todaysQuoteAt ⟨⟨2024, 5, 7⟩, 60⟩ = todaysQuoteAt ⟨⟨2024, 5, 7⟩, 1380⟩ :=
  C1_utc_determinism ⟨⟨2024, 5, 7⟩, 60⟩ ⟨⟨2024, 5, 7⟩, 1380⟩ rfl

/-- Claim C2: for every duration d in {5,10,...,60} minutes, from a state
with remaining = d*60 and isRunning = false, `start` followed by d*60
ticks drives remaining to exactly 0 and isRunning to false, remaining
decreasing by exactly 1 per tick (so after k ticks it is d*60 - k, still
running before the final tick) and reaching the clamp value 0 on the
final tick. -/
theorem C2_countdown (d : Nat)
    (hd : d ∈ [5, 10, 15, 20, 25, 30, 35, 40, 45, 50, 55, 60])
    (s : TimerState) (now : Int)
    (htot : s.totalDuration = (d : Int) * 60)
    (hrem : s.remaining = (d : Int) * 60)
    (hrun : s.isRunning = false) :
    (∀ k : Nat, k ≤ d * 60 →
      (ticks k now (handleStart s)).remaining = (d : Int) * 60 - k) ∧
    (∀ k : Nat, k < d * 60 →
      (ticks k now (handleStart s)).isRunning = true) ∧
    (ticks (d * 60) now (handleStart s)).remaining = 0 ∧
    (ticks (d * 60) now (handleStart s)).isRunning = false := by
  have hd5 : 5 ≤ d := by simp at hd; omega
  have hstart : handleStart s = { s with isRunning := true } := by
    rw [handleStart, if_neg]
    rw [hrem]
    push_cast
    omega
  have hrem2 : ({ s with isRunning := true } : TimerState).remaining =
      ((d * 60 : Nat) : Int) := by
    show s.remaining = _
    rw [hrem]; push_cast; ring
  have hfull : ticks (d * 60) now (handleStart s) =
      { s with remaining := 0
             , isRunning := false
             , history := completeSession s.totalDuration now s.history } := by
    rw [hstart]
    exact ticks_complete (d * 60) ({ s with isRunning := true }) now rfl hrem2
      (by omega)
  refine ⟨?_, ?_, ?_, ?_⟩
  · intro k hk
    rcases Nat.lt_or_ge k (d * 60) with hlt | hge
    · rw [hstart, ticks_run k ({ s with isRunning := true }) now rfl
        (by show (k : Int) < s.remaining; rw [hrem]; push_cast at hlt ⊢; omega)]
      show s.remaining - (k : Int) = _
      rw [hrem]
    · have hk60 : k = d * 60 := by omega
      subst hk60
      rw [hfull]
      show (0 : Int) = _
      push_cast
      ring
  · intro k hk
    rw [hstart, ticks_run k ({ s with isRunning := true }) now rfl
      (by show (k : Int) < s.remaining; rw [hrem]; push_cast at hk ⊢; omega)]
  · rw [hfull]
  · rw [hfull]

/-- Witness for C2_countdown at d = 5 (a 300-second session), empty
starting history, clock fixed at 0. -/
theorem C2_countdown_witness :
    (∀ k : Nat, k ≤ 5 * 60 →
      (ticks k 0 (handleStart ⟨((5 : Nat) : Int) * 60, ((5 : Nat) : Int) * 60,
        false, []⟩)).remaining = ((5 : Nat) : Int) * 60 - k) ∧
    (∀ k : Nat, k < 5 * 60 →
      (ticks k 0 (handleStart ⟨((5 : Nat) : Int) * 60, ((5 : Nat) : Int) * 60,
        false, []⟩)).isRunning = true) ∧
    (ticks (5 * 60) 0 (handleStart ⟨((5 : Nat) : Int) * 60, ((5 : Nat) : Int) * 60,
      false, []⟩)).remaining = 0 ∧
    (ticks (5 * 60) 0 (handleStart ⟨((5 : Nat) : Int) * 60, ((5 : Nat) : Int) * 60,
      false, []⟩)).isRunning = false :=
  C2_countdown 5 (by decide)
    ⟨((5 : Nat) : Int) * 60, ((5 : Nat) : Int) * 60, false, []⟩ 0 rfl rfl rfl

/-- Claim C3: a completing tick appends exactly one SessionRecord at the
head of the history (prepend, then truncate to 20): its duration is the
configured totalDuration (seconds), endedAt - startedAt equals
totalDuration * 1000, endedAt > startedAt (for a positive configured
duration), and its id is the string form of endedAt. -/
theorem C3_record (s : TimerState) (now : Int) (hrun : s.isRunning = true)
    (hlast : s.remaining ≤ 1) (hd : 0 < s.totalDuration) :
    (tickState now s).history =
      (buildSessionRecord s.totalDuration now :: s.history).take 20 ∧
    (tickState now s).history.head? =
      some (buildSessionRecord s.totalDuration now) ∧
    (tickState now s).history.length = min (s.history.length + 1) 20 ∧
    (buildSessionRecord s.totalDuration now).duration = s.totalDuration ∧
    (buildSessionRecord s.totalDuration now).endedAt -
      (buildSessionRecord s.totalDuration now).startedAt = s.totalDuration * 1000 ∧
    (buildSessionRecord s.totalDuration now).startedAt <
      (buildSessionRecord s.totalDuration now).endedAt ∧
    (buildSessionRecord s.totalDuration now).id =
      toString (buildSessionRecord s.totalDuration now).endedAt := by
  have hstate : tickState now s = { s with remaining := 0
                                         , isRunning := false
                                         , history := completeSession s.totalDuration now s.history } := by
    simp [tickState, tick_completing now s hrun hlast]
  refine ⟨?_, ?_, ?_, rfl, ?_, ?_, rfl⟩
  · rw [hstate]
    rfl
  · rw [hstate]
    show (completeSession s.totalDuration now s.history).head? = _
    rw [completeSession, List.take_succ_cons, List.head?_cons]
  · rw [hstate]
    show (completeSession s.totalDuration now s.history).length = _
    rw [completeSession, List.length_take, List.length_cons]
    omega
  · show now - (now - s.totalDuration * 1000) = s.totalDuration * 1000
    ring
  · show now - s.totalDuration * 1000 < now
    omega

/-- Witness for C3_record: a running state one second from completion,
25-minute configured duration, completing at clock value 777. -/
theorem C3_record_witness :
    (tickState 777 ⟨1500, 1, true, []⟩).history =
      (buildSessionRecord 1500 777 :: ([] : List SessionRecord)).take 20 ∧
    (tickState 777 ⟨1500, 1, true, []⟩).history.head? =
      some (buildSessionRecord 1500 777) ∧
    (tickState 777 ⟨1500, 1, true, []⟩).history.length =
      min (([] : List SessionRecord).length + 1) 20 ∧
    (buildSessionRecord 1500 777).duration = 1500 ∧
    (buildSessionRecord 1500 777).endedAt -
      (buildSessionRecord 1500 777).startedAt = 1500 * 1000 ∧
    (buildSessionRecord 1500 777).startedAt < (buildSessionRecord 1500 777).endedAt ∧
    (buildSessionRecord 1500 777).id = toString (buildSessionRecord 1500 777).endedAt :=
  C3_record ⟨1500, 1, true, []⟩ 777 rfl (by decide) (by decide)

/-- Claim C6: with remaining > 0, pause sets isRunning to false leaving
remaining unchanged, and a subsequent start resumes from the paused
remaining value (the whole state is the original with isRunning set);
start reseeds remaining to totalDuration exactly when remaining = 0
(over the reachable states, where remaining is non-negative). -/
theorem C6_pause_resume (s : TimerState) (h : 0 < s.remaining) :
    (handlePause s).remaining = s.remaining ∧
    (handlePause s).isRunning = false ∧
    handleStart (handlePause s) = { s with isRunning := true } ∧
    (handleStart (handlePause s)).remaining = s.remaining ∧
    (handleStart s).remaining = s.remaining ∧
    (∀ t : TimerState, 0 ≤ t.remaining →
      (handleStart t).remaining =
        (if t.remaining = 0 then t.totalDuration else t.remaining)) := by
  have hns : ¬ s.remaining ≤ 0 := by omega
  refine ⟨rfl, rfl, ?_, ?_, ?_, ?_⟩
  · show handleStart { s with isRunning := false } = _
    rw [handleStart, if_neg hns]
  · show (handleStart { s with isRunning := false }).remaining = _
    rw [handleStart, if_neg hns]
  · rw [handleStart, if_neg hns]
  · intro t ht
    by_cases h0 : t.remaining = 0
    · rw [handleStart, if_pos (by omega), if_pos h0]
    · rw [handleStart, if_neg (by omega), if_neg h0]

/-- Witness for C6_pause_resume: a running state with 42 seconds left. -/
theorem C6_pause_resume_witness :
    (handlePause ⟨300, 42, true, []⟩).remaining = (⟨300, 42, true, []⟩ : TimerState).remaining ∧
    (handlePause ⟨300, 42, true, []⟩).isRunning = false ∧
    handleStart (handlePause ⟨300, 42, true, []⟩) =
      { (⟨300, 42, true, []⟩ : TimerState) with isRunning := true } ∧
    (handleStart (handlePause ⟨300, 42, true, []⟩)).remaining =
      (⟨300, 42, true, []⟩ : TimerState).remaining ∧
    (handleStart ⟨300, 42, true, []⟩).remaining =
      (⟨300, 42, true, []⟩ : TimerState).remaining ∧
    (∀ t : TimerState, 0 ≤ t.remaining →
      (handleStart t).remaining =
        (if t.remaining = 0 then t.totalDuration else t.remaining)) :=
  C6_pause_resume ⟨300, 42, true, []⟩ (by decide)

/-- Claim C7: for every value v and every state, including a running one,
setDuration(v) sets totalDuration to v, resets remaining to v, halts the
session (isRunning = false), and touches nothing else (the history is
unchanged). -/
theorem C7_setDuration (v : Int) (s : TimerState) :
    (handleDurationChange v s).totalDuration = v ∧
    (handleDurationChange v s).remaining = v ∧
    (handleDurationChange v s).isRunning = false ∧
    (handleDurationChange v s).history = s.history :=
  ⟨rfl, rfl, rfl, rfl⟩

/-- Claim C8: every timer operation preserves 0 ≤ remaining ≤ totalDuration
(setDuration for the non-negative values the 5–60-minute slider produces);
remaining never increases on a tick, strictly decreases on a tick of a
running state with remaining > 0, is untouched by pause and by ticks of a
non-running state, and is re-seeded to totalDuration on reset and on
start-from-zero. -/
theorem C8_invariant (s : TimerState) (hinv : TimerInv s) :
    TimerInv (handleStart s) ∧
    TimerInv (handlePause s) ∧
    TimerInv (handleReset s) ∧
    (∀ v : Int, 0 ≤ v → TimerInv (handleDurationChange v s)) ∧
    (∀ now : Int, TimerInv (tickState now s)) ∧
    (∀ now : Int, (tickState now s).remaining ≤ s.remaining) ∧
    (∀ now : Int, s.isRunning = true → 0 < s.remaining →
      (tickState now s).remaining < s.remaining) ∧
    (s.isRunning = false → ∀ now : Int, tickState now s = s) ∧
    (handlePause s).remaining = s.remaining ∧
    (handleReset s).remaining = s.totalDuration ∧
    (s.remaining = 0 → (handleStart s).remaining = s.totalDuration) := by
  obtain ⟨h0, h1⟩ := hinv
  have htick : ∀ now : Int,
      (s.isRunning = false ∧ tickState now s = s) ∨
      (s.isRunning = true ∧ ¬ s.remaining ≤ 1 ∧
        tickState now s = { s with remaining := s.remaining - 1 }) ∨
      (s.isRunning = true ∧ s.remaining ≤ 1 ∧
        tickState now s = { s with remaining := 0
                                 , isRunning := false
                                 , history := completeSession s.totalDuration now s.history }) := by
    intro now
    by_cases hr : s.isRunning = true
    · by_cases hl : s.remaining ≤ 1
      · exact Or.inr (Or.inr ⟨hr, hl, by
          simp [tickState, tick_completing now s hr hl]⟩)
      · exact Or.inr (Or.inl ⟨hr, hl, by
          simp [tickState, tick_decrement now s hr hl]⟩)
    · have hrf : s.isRunning = false := by simpa using hr
      exact Or.inl ⟨hrf, by simp [tickState, tick_notRunning now s hrf]⟩
  refine ⟨?_, ⟨h0, h1⟩, ⟨?_, le_refl _⟩, ?_, ?_, ?_, ?_, ?_, rfl, rfl, ?_⟩
  · rw [handleStart]
    split_ifs with hz
    · exact ⟨(by omega : (0:Int) ≤ s.totalDuration), le_refl _⟩
    · exact ⟨h0, h1⟩
  · show (0:Int) ≤ s.totalDuration
    omega
  · intro v hv
    exact ⟨hv, le_refl _⟩
  · intro now
    rcases htick now with ⟨_, h⟩ | ⟨_, hl, h⟩ | ⟨_, _, h⟩
    · rw [h]; exact ⟨h0, h1⟩
    · rw [h]
      exact ⟨by show (0:Int) ≤ s.remaining - 1; omega,
             by show s.remaining - 1 ≤ s.totalDuration; omega⟩
    · rw [h]
      exact ⟨le_refl _, by show (0:Int) ≤ s.totalDuration; omega⟩
  · intro now
    rcases htick now with ⟨_, h⟩ | ⟨_, hl, h⟩ | ⟨_, hl, h⟩
    · rw [h]
    · rw [h]; show s.remaining - 1 ≤ s.remaining; omega
    · rw [h]; show (0:Int) ≤ s.remaining; omega
  · intro now hr hpos
    rcases htick now with ⟨hrf, h⟩ | ⟨_, hl, h⟩ | ⟨_, hl, h⟩
    · exact absurd (hr.symm.trans hrf) (by simp)
    · rw [h]; show s.remaining - 1 < s.remaining; omega
    · rw [h]; show (0:Int) < s.remaining; omega
  · intro hr now
    simp [tickState, tick_notRunning now s hr]
  · intro hz
    rw [handleStart, if_pos (by omega)]

/-- Witness for C8_invariant: a running mid-session state, 10 of 300
seconds remaining. -/
theorem C8_invariant_witness :
    TimerInv (handleStart ⟨300, 10, true, []⟩) ∧
    TimerInv (handlePause ⟨300, 10, true, []⟩) ∧
    TimerInv (handleReset ⟨300, 10, true, []⟩) ∧
    (∀ v : Int, 0 ≤ v → TimerInv (handleDurationChange v ⟨300, 10, true, []⟩)) ∧
    (∀ now : Int, TimerInv (tickState now ⟨300, 10, true, []⟩)) ∧
    (∀ now : Int, (tickState now ⟨300, 10, true, []⟩).remaining ≤
      (⟨300, 10, true, []⟩ : TimerState).remaining) ∧
    (∀ now : Int, (⟨300, 10, true, []⟩ : TimerState).isRunning = true →
      0 < (⟨300, 10, true, []⟩ : TimerState).remaining →
      (tickState now ⟨300, 10, true, []⟩).remaining <
        (⟨300, 10, true, []⟩ : TimerState).remaining) ∧
    ((⟨300, 10, true, []⟩ : TimerState).isRunning = false →
      ∀ now : Int, tickState now ⟨300, 10, true, []⟩ = ⟨300, 10, true, []⟩) ∧
    (handlePause ⟨300, 10, true, []⟩).remaining =
      (⟨300, 10, true, []⟩ : TimerState).remaining ∧
    (handleReset ⟨300, 10, true, []⟩).remaining =
      (⟨300, 10, true, []⟩ : TimerState).totalDuration ∧
    ((⟨300, 10, true, []⟩ : TimerState).remaining = 0 →
      (handleStart ⟨300, 10, true, []⟩).remaining =
        (⟨300, 10, true, []⟩ : TimerState).totalDuration) :=
  C8_invariant ⟨300, 10, true, []⟩ ⟨by decide, by decide⟩

/-- Claim C9: the chime capability is invoked (with no arguments) exactly
once per completed session — once on the completing tick, zero times on
every other tick, once in total over a full session run — and a failure
inside it is contained: the resulting timer state and history are
identical whether the underlying audio work succeeds or throws, and the
trigger itself never propagates the exception (the catch only logs). -/
theorem C9_chime (now : Int) (s : TimerState) (n : Nat)
    (hrun : s.isRunning = true) (hrem : s.remaining = (n : Int)) (hn : 1 ≤ n) :
    (∀ (audio : Except Unit Unit) (t : TimerState),
      (tickWithChime audio now t).1 = tickState now t) ∧
    (∀ t : TimerState,
      (tickWithChime (Except.ok ()) now t).1 =
        (tickWithChime (Except.error ()) now t).1) ∧
    (∀ (audio : Except Unit Unit) (t : TimerState),
      (tickWithChime audio now t).2.1 = (tick now t).2) ∧
    (∀ (audio : Except Unit Unit) (t : TimerState),
      ((tickWithChime audio now t).2.1 = 1 ↔
        t.isRunning = true ∧ t.remaining ≤ 1)) ∧
    bellChimeTrigger (Except.ok ()) = false ∧
    bellChimeTrigger (Except.error ()) = true ∧
    ticksChime n now s = 1 := by
  have hstate : ∀ (audio : Except Unit Unit) (t : TimerState),
      (tickWithChime audio now t).1 = tickState now t := by
    intro audio t
    rw [tickWithChime, tickState, tick]
    split_ifs <;> rfl
  have hcount : ∀ (audio : Except Unit Unit) (t : TimerState),
      (tickWithChime audio now t).2.1 = (tick now t).2 := by
    intro audio t
    rw [tickWithChime, tick]
    split_ifs <;> rfl
  refine ⟨hstate, ?_, hcount, ?_, rfl, rfl, ticksChime_complete n s now hrun hrem hn⟩
  · intro t
    rw [hstate (Except.ok ()) t, hstate (Except.error ()) t]
  · intro audio t
    rw [hcount audio t, tick]
    split_ifs with hr hl
    · simp [hr, hl]
    · simp [hr, hl]
    · simp at hr
      simp [hr]

/-- Witness for C9_chime: a 3-second running session, clock at 0. -/
theorem C9_chime_witness :
    (∀ (audio : Except Unit Unit) (t : TimerState),
      (tickWithChime audio 0 t).1 = tickState 0 t) ∧
    (∀ t : TimerState,
      (tickWithChime (Except.ok ()) 0 t).1 =
        (tickWithChime (Except.error ()) 0 t).1) ∧
    (∀ (audio : Except Unit Unit) (t : TimerState),
      (tickWithChime audio 0 t).2.1 = (tick 0 t).2) ∧
    (∀ (audio : Except Unit Unit) (t : TimerState),
      ((tickWithChime audio 0 t).2.1 = 1 ↔
        t.isRunning = true ∧ t.remaining ≤ 1)) ∧
    bellChimeTrigger (Except.ok ()) = false ∧
    bellChimeTrigger (Except.error ()) = true ∧
    ticksChime 3 0 ⟨300, 3, true, []⟩ = 1 :=
  C9_chime 0 ⟨300, 3, true, []⟩ 3 rfl (by decide) (by decide)

theorem filterKeep_length_le (es : List JsValue) : ∀ (kept : List JsValue),
    filterKeep es = Except.ok kept → kept.length ≤ es.length := by
  induction es with
  | nil =>
    intro kept h
    cases h
    exact Nat.le_refl 0
  | cons e rest ih =>
    intro kept h
    rw [filterKeep] at h
    cases hk : entryKeep e with
    | error u => rw [hk] at h; cases h
    | ok keep =>
      rw [hk] at h
      cases hr : filterKeep rest with
      | error u => rw [hr] at h; cases h
      | ok tail =>
        rw [hr] at h
        cases h
        have := ih tail hr
        by_cases hkeep : keep = true <;> simp [hkeep] <;> omega

theorem loadHistory_sorted (stored : StoredHistory) :
    sortedDescJs (loadHistory stored).1 := by
  cases stored with
  | absent => exact List.Pairwise.nil
  | unparseable => exact List.Pairwise.nil
  | value v =>
    cases v with
    | arr entries =>
      rw [loadHistory]
      cases h : filterKeep entries with
      | error u => exact List.Pairwise.nil
      | ok kept => exact sortByEndedDesc_sorted kept
    | jsUndefined => exact List.Pairwise.nil
    | jsNull => exact List.Pairwise.nil
    | bool b => exact List.Pairwise.nil
    | num n => exact List.Pairwise.nil
    | str t => exact List.Pairwise.nil
    | obj fields => exact List.Pairwise.nil

/-- Claim C5, as stated, is false on a stored array that contains a JSON
`null` entry after a well-formed one: the property access in the filter
callback throws a TypeError, the surrounding catch runs, and the WHOLE
load returns the empty list (with the failure logged) instead of dropping
only the malformed entry and keeping the well-formed one. -/
theorem C5_counterexample :
    entryKeep goodEntry = Except.ok true ∧
    entryKeep JsValue.jsNull = Except.error () ∧
    loadHistory storedWithNull = ([], true) ∧
    ([] : List JsValue) ≠ [goodEntry] :=
  ⟨rfl, rfl, rfl, Ne.symm (List.cons_ne_nil goodEntry [])⟩

/-- Claim C5 (amended): load never propagates an exception (it is a total
function of the stored input); an absent key yields the empty sequence
without a diagnostic, a parse failure yields the empty sequence and logs;
for a parseable array all of whose entries are property-accessible (not
`null`/`undefined`), entries without numeric `endedAt` and `duration` are
silently dropped and the kept entries are returned sorted by `endedAt`
descending; but an array containing a `null`/`undefined` entry makes the
whole load fail soft to the empty sequence (logged, still no exception). -/
theorem C5_load (stored : StoredHistory) (es : List JsValue)
    (hacc : es.all accessible = true) :
    loadHistory StoredHistory.absent = ([], false) ∧
    loadHistory StoredHistory.unparseable = ([], true) ∧
    sortedDescJs (loadHistory stored).1 ∧
    loadHistory (.value (.arr es)) =
      (sortByEndedDesc (es.filter keepPure), false) ∧
    (loadHistory (.value (.arr es))).1.Perm (es.filter keepPure) := by
  have heq : loadHistory (.value (.arr es)) =
      (sortByEndedDesc (es.filter keepPure), false) := by
    rw [loadHistory, filterKeep_accessible es hacc]
  refine ⟨rfl, rfl, loadHistory_sorted stored, heq, ?_⟩
  rw [heq]
  exact List.mergeSort_perm (es.filter keepPure) _

/-- Witness for C5_load: a stored array of three accessible entries, one
of which lacks a numeric duration. -/
theorem C5_load_witness :
    loadHistory StoredHistory.absent = ([], false) ∧
    loadHistory StoredHistory.unparseable = ([], true) ∧
    sortedDescJs (loadHistory storedWithNull).1 ∧
    loadHistory (.value (.arr [goodEntry,
      JsValue.obj [("endedAt", JsValue.num 5), ("duration", JsValue.str "x")],
      JsValue.obj [("endedAt", JsValue.num 2000), ("duration", JsValue.num 120)]])) =
      (sortByEndedDesc ([goodEntry,
        JsValue.obj [("endedAt", JsValue.num 5), ("duration", JsValue.str "x")],
        JsValue.obj [("endedAt", JsValue.num 2000), ("duration", JsValue.num 120)]].filter
          keepPure), false) ∧
    (loadHistory (.value (.arr [goodEntry,
      JsValue.obj [("endedAt", JsValue.num 5), ("duration", JsValue.str "x")],
      JsValue.obj [("endedAt", JsValue.num 2000), ("duration", JsValue.num 120)]]))).1.Perm
      ([goodEntry,
        JsValue.obj [("endedAt", JsValue.num 5), ("duration", JsValue.str "x")],
        JsValue.obj [("endedAt", JsValue.num 2000), ("duration", JsValue.num 120)]].filter
          keepPure) :=
  C5_load storedWithNull
    [goodEntry,
     JsValue.obj [("endedAt", JsValue.num 5), ("duration", JsValue.str "x")],
     JsValue.obj [("endedAt", JsValue.num 2000), ("duration", JsValue.num 120)]]
    rfl

/-- Claim C10: persist-then-load is the identity on well-formed histories:
for every list of SessionRecords (numeric fields by construction) sorted
by endedAt strictly descending, loading right after persisting returns
exactly the persisted entries, in order, with no diagnostic logged. -/
theorem C10_roundtrip (h : List SessionRecord)
    (hsorted : h.Pairwise (fun a b => b.endedAt < a.endedAt)) :
    loadHistory (persistHistory h) = (h.map recordToJs, false) := by
  have hacc : (h.map recordToJs).all accessible = true := by
    rw [List.all_eq_true]
    intro e he
    rcases List.mem_map.mp he with ⟨r, _, rfl⟩
    exact accessible_recordToJs r
  have hkeep : (h.map recordToJs).filter keepPure = h.map recordToJs := by
    rw [List.filter_eq_self]
    intro e he
    rcases List.mem_map.mp he with ⟨r, _, rfl⟩
    exact keepPure_recordToJs r
  have hsorted2 : sortedDescJs (h.map recordToJs) := by
    rw [sortedDescJs, List.pairwise_map]
    exact hsorted.imp (fun hab => by
      rw [endedVal_recordToJs, endedVal_recordToJs]
      omega)
  have heq : loadHistory (persistHistory h) =
      (sortByEndedDesc ((h.map recordToJs).filter keepPure), false) := by
    rw [persistHistory, loadHistory, filterKeep_accessible _ hacc]
  rw [heq, hkeep, sortByEndedDesc_of_sorted _ hsorted2]

/-- Witness for C10_roundtrip: two records, newest first. -/
theorem C10_roundtrip_witness :
    loadHistory (persistHistory
      [⟨"2000", 1880, 2000, 60⟩, ⟨"1000", 940, 1000, 60⟩]) =
      ([⟨"2000", 1880, 2000, 60⟩, ⟨"1000", 940, 1000, 60⟩].map recordToJs,
        false) :=
  C10_roundtrip [⟨"2000", 1880, 2000, 60⟩, ⟨"1000", 940, 1000, 60⟩]
    (by decide)

/-- Claim C4, as stated, is false for the initial load: `loadHistory` does
not truncate, so loading a stored array of twenty-one well-formed entries
produces a history of length 21, violating the length ≤ 20 bound right
after a history-producing operation. -/
theorem C4_counterexample :
    (loadHistory storedOverCap).1.length = 21 ∧
    ¬ ((loadHistory storedOverCap).1.length ≤ 20) := by
  have hf : filterKeep entriesOverCap = Except.ok entriesOverCap := rfl
  have h1 : (loadHistory storedOverCap).1 = sortByEndedDesc entriesOverCap := by
    rw [storedOverCap, loadHistory, hf]
  have h2 : (loadHistory storedOverCap).1.length = 21 := by
    rw [h1, sortByEndedDesc_length]
    rfl
  exact ⟨h2, by omega⟩

/-- Claim C4 (amended): each completion preserves the history invariant
(length ≤ 20, endedAt descending) when the completion time is no older
than the stored records; every load returns entries sorted by endedAt
descending, and returns at most as many entries as the stored array holds
(so the ≤ 20 bound holds after a load exactly when the stored array, as
any array this program writes, has at most 20 entries — load itself does
not truncate); and after 21 completions at strictly increasing times from
an empty history the oldest record is absent and the newest 20 remain,
newest-first. -/
theorem C4_history_invariant :
    (∀ (d now : Int) (h : List SessionRecord),
      h.length ≤ 20 → sortedDescR h → (∀ r ∈ h, r.endedAt ≤ now) →
      (completeSession d now h).length ≤ 20 ∧
        sortedDescR (completeSession d now h)) ∧
    (∀ stored : StoredHistory, sortedDescJs (loadHistory stored).1) ∧
    (∀ es : List JsValue,
      (loadHistory (.value (.arr es))).1.length ≤ es.length) ∧
    (∀ (d t0 : Int) (rest : List Int),
      rest.length = 20 → (t0 :: rest).Pairwise (fun a b => a < b) →
      runCompletions d (t0 :: rest) [] =
        (rest.map (fun t => buildSessionRecord d t)).reverse ∧
      buildSessionRecord d t0 ∉ runCompletions d (t0 :: rest) [] ∧
      (runCompletions d (t0 :: rest) []).length = 20 ∧
      sortedDescR (runCompletions d (t0 :: rest) [])) := by
  refine ⟨?_, loadHistory_sorted, ?_, ?_⟩
  · intro d now h hlen hsort hle
    constructor
    · rw [completeSession, List.length_take]
      omega
    · rw [completeSession, sortedDescR]
      exact List.Pairwise.sublist (List.take_sublist 20 _)
        (List.pairwise_cons.mpr ⟨fun r hr => hle r hr, hsort⟩)
  · intro es
    cases hf : filterKeep es with
    | error u => simp [loadHistory, hf]
    | ok kept =>
      have : (loadHistory (.value (.arr es))).1 = sortByEndedDesc kept := by
        rw [loadHistory, hf]
      rw [this, sortByEndedDesc_length]
      exact filterKeep_length_le es kept hf
  · intro d t0 rest hlen hpair
    have hpc := List.pairwise_cons.mp hpair
    have hl2 : ((rest.map (fun t => buildSessionRecord d t)).reverse).length = 20 := by
      simp [hlen]
    have hmain : runCompletions d (t0 :: rest) [] =
        (rest.map (fun t => buildSessionRecord d t)).reverse := by
      rw [runCompletions_eq d (t0 :: rest) [] (by simp)]
      rw [List.map_cons, List.reverse_cons, List.append_nil]
      rw [← hl2, List.take_left]
    refine ⟨hmain, ?_, ?_, ?_⟩
    · rw [hmain]
      intro hmem
      rw [List.mem_reverse] at hmem
      rcases List.mem_map.mp hmem with ⟨t, ht, heq⟩
      have ht0 : t = t0 := by
        have h2 := congrArg SessionRecord.endedAt heq
        simpa [buildSessionRecord] using h2
      have := hpc.1 t ht
      omega
    · rw [hmain, hl2]
    · rw [hmain, sortedDescR, List.pairwise_reverse, List.pairwise_map]
      exact (hpc.2).imp (fun hab => le_of_lt hab)

/-- Witness for C4_history_invariant: one completion over an empty sorted
history, and a 21-completion run at times 1..21. -/
theorem C4_history_invariant_witness :
    ((completeSession 300 5000 []).length ≤ 20 ∧
      sortedDescR (completeSession 300 5000 [])) ∧
    (runCompletions 300
        (1 :: [2, 3, 4, 5, 6, 7, 8, 9, 10, 11, 12, 13, 14, 15, 16, 17, 18, 19, 20, 21]) [] =
      ([2, 3, 4, 5, 6, 7, 8, 9, 10, 11, 12, 13, 14, 15, 16, 17, 18, 19, 20, 21].map
        (fun t => buildSessionRecord 300 t)).reverse ∧
    buildSessionRecord 300 1 ∉ runCompletions 300
      (1 :: [2, 3, 4, 5, 6, 7, 8, 9, 10, 11, 12, 13, 14, 15, 16, 17, 18, 19, 20, 21]) [] ∧
    (runCompletions 300
      (1 :: [2, 3, 4, 5, 6, 7, 8, 9, 10, 11, 12, 13, 14, 15, 16, 17, 18, 19, 20, 21]) []).length = 20 ∧
    sortedDescR (runCompletions 300
      (1 :: [2, 3, 4, 5, 6, 7, 8, 9, 10, 11, 12, 13, 14, 15, 16, 17, 18, 19, 20, 21]) [])) :=
  ⟨C4_history_invariant.1 300 5000 [] (by simp) List.Pairwise.nil (by simp),
   C4_history_invariant.2.2.2 300 1
     [2, 3, 4, 5, 6, 7, 8, 9, 10, 11, 12, 13, 14, 15, 16, 17, 18, 19, 20, 21]
     (by decide) (by decide)⟩
